import Mathlib

/-!
Verification of the simulated-annealing TSP program `salesman.py`.

Shallow embedding conventions:
* Python floats are modelled as exact rationals (`ℚ`); the transcendental
  `exp` of the Metropolis test is modelled with `Real.exp` over `ℝ`.
* Fallible Python code (uncaught `ZeroDivisionError`, `ValueError`,
  `IndexError`) is modelled by the result type `Res`; the potentially
  non-terminating `while True` loop of `swap_cities` is modelled by a fuel
  parameter, with fuel exhaustion surfacing as `Res.timeout`.
* The process-wide random generator is modelled by explicit streams:
  `si : ℕ → ℕ` feeds the raw draws of `numpy.random.randint` (mapped into
  the requested range by `mod`), `sr : ℕ → ℚ` feeds `random.random()`;
  each is consumed at an explicit position that the state threads along.
* Text files are modelled at the character level (`List Char`); splitting
  a city line into whitespace-separated tokens is modelled at the token
  level (`Tok`), where a token is either one that Python `float` parses or
  one that it rejects.
-/

/-- The uncaught Python exceptions that the modelled code can raise. -/
inductive PyErr : Type
  | zeroDivisionError
  | valueError
  | indexError
deriving DecidableEq, Repr

/-- Result of running a piece of the modelled Python code: a value, an
uncaught exception, or exhaustion of the fuel bounding the one unbounded
`while` loop (`timeout` models potential non-termination, not a Python
behaviour). -/
inductive Res (α : Type) : Type
  | ok : α → Res α
  | err : PyErr → Res α
  | timeout : Res α
deriving DecidableEq, Repr

/-- Sequencing of modelled Python computations: exceptions and
non-termination propagate. -/
def Res.bind {α β : Type} : Res α → (α → Res β) → Res β
  | .ok a, f => f a
  | .err e, _ => .err e
  | .timeout, _ => .timeout

/-! ### Route files: `write_route_to_file` / `read_route_from_file`

`write_route_to_file` builds the string `str(i) + "\n "` for each entry
(the stray space after each newline is in the source), and
`read_route_from_file` reads the file back line by line, appending
`int(line)` and skipping lines where `int` raises. -/

/-- The decimal digit character for `d < 10`, as Python `str` produces. -/
def digitChar (d : ℕ) : Char := Char.ofNat (48 + d)

/-- Most-significant-first decimal digits of `n`, by repeated division by
ten; the first argument is structural fuel (`fuel ≥ n` suffices, and the
wrapper `natChars` supplies it), and `n = 0` yields `[]` here. -/
def natCharsAux : ℕ → ℕ → List Char
  | 0, _ => []
  | fuel + 1, n => if n = 0 then [] else natCharsAux fuel (n / 10) ++ [digitChar (n % 10)]

/-- Decimal digit string of a natural number, as Python `str` renders it. -/
def natChars (n : ℕ) : List Char := if n = 0 then [digitChar 0] else natCharsAux n n

/-- Python `str` of an integer: optional minus sign, then decimal digits. -/
def intChars (i : ℤ) : List Char := if i < 0 then '-' :: natChars i.natAbs else natChars i.natAbs

/-- `write_route_to_file`: the file contents built by
`writelines += str(i) + "\n "` over the route. -/
def writeRouteChars (route : List ℤ) : List Char :=
  (route.map fun i => intChars i ++ ['\n', ' ']).flatten

/-- Helper for `splitLines`: `acc` holds the characters of the current
line in reverse.  Mirrors Python `readlines`: each line keeps its
terminating newline, and a non-empty final fragment is a line too. -/
def splitLinesAux : List Char → List Char → List (List Char)
  | [], acc => if acc = [] then [] else [acc.reverse]
  | c :: cs, acc =>
      if c = '\n' then (c :: acc).reverse :: splitLinesAux cs []
      else splitLinesAux cs (c :: acc)

/-- Python `file.readlines()` on the given file contents. -/
def splitLines (s : List Char) : List (List Char) := splitLinesAux s []

/-- Whitespace characters stripped by Python `int(str)`. -/
def isWS (c : Char) : Bool := c = ' ' || c = '\n' || c = '\t' || c = '\r'

/-- Strip leading and trailing whitespace, as Python `int(str)` does
before parsing. -/
def stripWS (s : List Char) : List Char :=
  ((s.dropWhile isWS).reverse.dropWhile isWS).reverse

/-- Numeric value of a decimal digit character, if it is one. -/
def digitVal (c : Char) : Option ℕ :=
  if 48 ≤ c.toNat ∧ c.toNat ≤ 57 then some (c.toNat - 48) else none

/-- Accumulating decimal parse: fails on the first non-digit character. -/
def digitsValAux : ℕ → List Char → Option ℕ
  | acc, [] => some acc
  | acc, c :: cs =>
      match digitVal c with
      | some v => digitsValAux (acc * 10 + v) cs
      | none => none

/-- Python `int(str)`: strip whitespace, accept an optional sign followed
by one or more decimal digits, raise `ValueError` otherwise. -/
def pyIntParse (s : List Char) : Res ℤ :=
  match stripWS s with
  | [] => .err .valueError
  | c :: ds =>
      if c = '-' then
        match ds, digitsValAux 0 ds with
        | _ :: _, some n => .ok (-(n : ℤ))
        | _, _ => .err .valueError
      else if c = '+' then
        match ds, digitsValAux 0 ds with
        | _ :: _, some n => .ok ((n : ℤ))
        | _, _ => .err .valueError
      else
        match digitsValAux 0 (c :: ds) with
        | some n => .ok ((n : ℤ))
        | none => .err .valueError

/-- The `for line in lines: try: route.append(int(line)) except: pass`
loop of `read_route_from_file`. -/
def readRouteAux : List (List Char) → List ℤ → List ℤ
  | [], acc => acc
  | l :: ls, acc =>
      match pyIntParse l with
      | .ok n => readRouteAux ls (acc ++ [n])
      | _ => readRouteAux ls acc

/-- `read_route_from_file` applied to the lines of the file. -/
def readRouteFromFile (lines : List (List Char)) : List ℤ :=
  readRouteAux lines []

/-! ### Cities file: `read_cities_from_file`

Each line is modelled after `line.split()` as its list of whitespace
tokens; `Tok.num q` is a token that Python `float` parses to the value
`q`, `Tok.bad` one on which `float` raises `ValueError`.  The source loop
is, for each line: `parts = line.split(); if len(parts) > 0:
cities.append([float(parts[0]), float(parts[1])])` — with no
`try/except`, so a failing `float` or a missing second token raises. -/

/-- A whitespace-separated token of a city line. -/
inductive Tok : Type
  | num : ℚ → Tok
  | bad : Tok
deriving DecidableEq, Repr

/-- Python `float(token)`: the parsed value, or an uncaught `ValueError`. -/
def pyFloat : Tok → Res ℚ
  | .num q => .ok q
  | .bad => .err .valueError

/-- Python list indexing `parts[i]`: `IndexError` when out of range. -/
def pyGet (l : List Tok) (i : ℕ) : Res Tok :=
  match l.get? i with
  | some t => .ok t
  | none => .err .indexError

/-- The line loop of `read_cities_from_file`, accumulating the city list. -/
def readCitiesAux : List (List Tok) → List (ℚ × ℚ) → Res (List (ℚ × ℚ))
  | [], acc => .ok acc
  | parts :: rest, acc =>
      if 0 < parts.length then
        (pyGet parts 0).bind fun t0 =>
          (pyFloat t0).bind fun x =>
            (pyGet parts 1).bind fun t1 =>
              (pyFloat t1).bind fun y =>
                readCitiesAux rest (acc ++ [(x, y)])
      else readCitiesAux rest acc

/-- `read_cities_from_file` applied to the tokenised lines of the file. -/
def readCitiesFromFile (lines : List (List Tok)) : Res (List (ℚ × ℚ)) :=
  readCitiesAux lines []

/-- The spec's description of the loader ("lines failing to parse two
numbers are skipped"): keep exactly the lines whose first two tokens
parse as numbers.  Used to state how far the source deviates from it. -/
def lineParse : List Tok → Option (ℚ × ℚ)
  | Tok.num x :: Tok.num y :: _ => some (x, y)
  | _ => none

/-! ### Distance matrix: `calculate_distances`

The source fills an `N × N` array with
`distances[i,j] = sqrt(dx*dx + dy*dy)` and mirrors the value to `[j,i]`
inside a loop over all pairs `(i,j)`; since the mirrored write at
iteration `(i,j)` is overwritten by the direct write at iteration
`(j,i)` with the same value, the resulting matrix is exactly the map
below. -/

/-- `calculate_distances` on a list of city coordinates. -/
noncomputable def calculateDistances (cities : List (ℚ × ℚ)) : List (List ℝ) :=
  (List.range cities.length).map fun i =>
    (List.range cities.length).map fun j =>
      Real.sqrt ((((cities.getD i (0, 0)).1 : ℝ) - ((cities.getD j (0, 0)).1 : ℝ)) *
                   (((cities.getD i (0, 0)).1 : ℝ) - ((cities.getD j (0, 0)).1 : ℝ)) +
                 (((cities.getD i (0, 0)).2 : ℝ) - ((cities.getD j (0, 0)).2 : ℝ)) *
                   (((cities.getD i (0, 0)).2 : ℝ) - ((cities.getD j (0, 0)).2 : ℝ)))

/-- Entry `(i, j)` of a matrix given as a list of rows. -/
noncomputable def dmEntry (m : List (List ℝ)) (i j : ℕ) : ℝ := (m.getD i []).getD j 0

/-! ### Tour evaluation, perturbation and annealing

`get_trip_length`, `swap_cities` and `optimize_route`.  The distance
matrix argument is modelled as a function `d : ℕ → ℕ → ℚ` (the source
passes an arbitrary `N × N` array and the claims index it only at valid
tour indices). -/

/-- `get_trip_length`: the sum of `d (route i) (route (i+1))` over
consecutive positions of the route. -/
def getTripLength (d : ℕ → ℕ → ℚ) : List ℕ → ℚ
  | a :: b :: rest => d a b + getTripLength d (b :: rest)
  | _ => 0

/-- Python slice `l[i:j]` (step 1, non-negative bounds, clamping). -/
def pySlice1 {α : Type} (l : List α) (i j : ℕ) : List α := (l.take j).drop i

/-- Python slice `l[i:j:-1]` for non-negative in-range bounds: reads the
positions `i, i-1, ..., j+1` in that order. -/
def pySliceNeg {α : Type} (l : List α) (i j : ℕ) : List α :=
  (List.range (i - j)).filterMap fun t => l.get? (i - t)

/-- The `while True` loop of `swap_cities`: redraw
`city2 = randint(2, len(route)-1)` (modelled as `2 + si p % m` with `m`
the size of the half-open range) until it differs from `city1`; `fuel`
bounds the redraws, with exhaustion reported as `timeout`. -/
def drawDistinct (si : ℕ → ℕ) (c1 m : ℕ) : ℕ → ℕ → Res (ℕ × ℕ)
  | _, 0 => .timeout
  | p, fuel + 1 =>
      if c1 ≠ 2 + si p % m then .ok (2 + si p % m, p + 1)
      else drawDistinct si c1 m (p + 1) fuel

/-- The random part of `swap_cities`: draw `city1 = randint(2,
len(route)-1)` (numpy raises `ValueError` when the range `[2, len-1)` is
empty, i.e. when `len(route) < 4`), then the distinct second draw, then
order the pair (the source swaps the names when `city2 < city1`).
Returns the ordered pair and the next stream position. -/
def swapDraw (route : List ℕ) (si : ℕ → ℕ) (p fuel : ℕ) : Res (ℕ × ℕ × ℕ) :=
  if 4 ≤ route.length then
    (drawDistinct si (2 + si p % (route.length - 3)) (route.length - 3) (p + 1) fuel).bind
      fun pr =>
        if pr.1 < 2 + si p % (route.length - 3) then .ok (pr.1, 2 + si p % (route.length - 3), pr.2)
        else .ok (2 + si p % (route.length - 3), pr.1, pr.2)
  else .err .valueError

/-- `swap_cities`: after the draws, build
`np.append(np.append(route[0:city1-1], route[city2:city1-2:-1]),
route[city2+1:len(route)])`. -/
def swapCities (route : List ℕ) (si : ℕ → ℕ) (p fuel : ℕ) : Res (List ℕ × ℕ) :=
  (swapDraw route si p fuel).bind fun c =>
    match c with
    | (c1, c2, p2) =>
        .ok (pySlice1 route 0 (c1 - 1) ++ pySliceNeg route c2 (c1 - 2) ++
               pySlice1 route (c2 + 1) route.length, p2)

/-- The source's `k = 0.01`, "constant for modifying the Boltzmann
probability". -/
def kconst : ℚ := 1 / 100

/-- The Metropolis test of `optimize_route`:
`R < exp(-dL / k * temperature)` — dividing `dL` by `k` and multiplying
by the temperature, exactly as the source writes it. -/
def acceptReal (r dL temp : ℚ) : Prop :=
  (r : ℝ) < Real.exp ((-dL / kconst * temp : ℚ) : ℝ)

/-- The mutable locals of one `optimize_route` invocation: current route
and length, best route and length, temperature, and the positions in the
two random streams. -/
structure AState : Type where
  cur : List ℕ
  curLen : ℚ
  best : List ℕ
  bestLen : ℚ
  temp : ℚ
  ip : ℕ
  rp : ℕ
deriving DecidableEq, Repr

open Classical in
/-- One trial of `optimize_route`.  If the candidate is strictly shorter,
it is accepted and `route_changed` is `True`; otherwise one sample `R` is
drawn and the candidate is accepted (current route and length replaced)
when `R < exp(-dL/k*temperature)` — but the source then unconditionally
overwrites `route_changed` with `False` in that `else` branch, so the
best route is updated (when the candidate beats it) only after a
strict-improvement acceptance.  The temperature is increased by `dt` at
the end of every trial. -/
noncomputable def annealTrial (d : ℕ → ℕ → ℚ) (si : ℕ → ℕ) (sr : ℕ → ℚ) (fuel : ℕ)
    (dt : ℚ) (st : AState) : Res AState :=
  match swapCities st.cur si st.ip fuel with
  | .err e => .err e
  | .timeout => .timeout
  | .ok (nr, ip2) =>
      if getTripLength d nr < st.curLen then
        .ok ⟨nr, getTripLength d nr,
             if getTripLength d nr < st.bestLen then nr else st.best,
             if getTripLength d nr < st.bestLen then getTripLength d nr else st.bestLen,
             st.temp + dt, ip2, st.rp⟩
      else
        if acceptReal (sr st.rp) (getTripLength d nr - st.curLen) st.temp then
          .ok ⟨nr, getTripLength d nr, st.best, st.bestLen, st.temp + dt, ip2, st.rp + 1⟩
        else
          .ok ⟨st.cur, st.curLen, st.best, st.bestLen, st.temp + dt, ip2, st.rp + 1⟩

/-- The `for i in range(trials)` loop of `optimize_route`. -/
noncomputable def annealLoop (d : ℕ → ℕ → ℚ) (si : ℕ → ℕ) (sr : ℕ → ℚ) (fuel : ℕ)
    (dt : ℚ) : ℕ → AState → Res AState
  | 0, st => .ok st
  | n + 1, st =>
      match annealTrial d si sr fuel dt st with
      | .err e => .err e
      | .timeout => .timeout
      | .ok st2 => annealLoop d si sr fuel dt n st2

/-- Python division: `ZeroDivisionError` on a zero denominator. -/
def pyDiv (a b : ℚ) : Res ℚ :=
  if b = 0 then .err .zeroDivisionError else .ok (a / b)

/-- `optimize_route(route, distances, initial_temperature, trials,
final_temperature)`: initialise current = best = the input route with its
length, compute `dt = (final_temperature - initial_temperature) /
(trials - 1)` (an unguarded division), run the trials, and return the
best route found. -/
noncomputable def optimizeRoute (route : List ℕ) (d : ℕ → ℕ → ℚ) (t0 : ℚ) (trials : ℕ)
    (t1 : ℚ) (si : ℕ → ℕ) (sr : ℕ → ℚ) (fuel : ℕ) : Res (List ℕ) :=
  match pyDiv (t1 - t0) ((trials : ℚ) - 1) with
  | .err e => .err e
  | .timeout => .timeout
  | .ok dt =>
      match annealLoop d si sr fuel dt trials
          ⟨route, getTripLength d route, route, getTripLength d route, t0, 0, 0⟩ with
      | .err e => .err e
      | .timeout => .timeout
      | .ok st => .ok st.best

/-! ### Concrete inputs used by the witnesses -/

/-- A concrete 5-city distance table (as a function; asymmetric is fine —
`optimize_route` takes the matrix as given).  Chosen so that the two
swaps drawn by `siW` from `routeW` are both strict improvements. -/
def dW : ℕ → ℕ → ℚ := fun i j =>
  match i, j with
  | 0, 1 => 50 | 1, 2 => 10 | 2, 3 => 2 | 3, 4 => 2 | 4, 0 => 1
  | 0, 4 => 10 | 4, 3 => 10 | 3, 2 => 10 | 2, 1 => 10 | 1, 0 => 1
  | 0, 2 => 1 | 4, 1 => 1
  | _, _ => 5

/-- Concrete `randint` raw stream: the four draws give the boundary
pairs (2, 4) and then (2, 3). -/
def siW : ℕ → ℕ := fun p => if p = 1 then 2 else if p = 3 then 1 else 0

/-- Concrete `random.random()` stream (never consumed on the strict
improvement path). -/
def srW : ℕ → ℚ := fun _ => 1 / 2

/-- A concrete valid closed tour on 5 cities. -/
def routeW : List ℕ := [0, 1, 2, 3, 4, 0]

/-- The initial annealing state for `routeW` under `dW`
(`getTripLength dW routeW = 65`). -/
def stW : AState := ⟨routeW, 65, routeW, 65, 50, 0, 0⟩

/-- The state after the first trial: the swap (2, 4) reverses the tour
interior, giving length 41 < 65. -/
def st1W : AState := ⟨[0, 4, 3, 2, 1, 0], 41, [0, 4, 3, 2, 1, 0], 41, 1, 2, 0⟩

/-- The state after the second trial: the swap (2, 3) gives length 7 < 41. -/
def st2W : AState := ⟨[0, 2, 3, 4, 1, 0], 7, [0, 2, 3, 4, 1, 0], 7, -48, 4, 0⟩

/-- A concrete city list for the distance-matrix witness. -/
def citiesW : List (ℚ × ℚ) := [(0, 0), (3, 4)]

/-- Concrete tokenised city files: `linesBlankW` has one blank line and
two valid lines, `linesBadW` one malformed (non-blank) line and two
valid lines. -/
def linesBlankW : List (List Tok) := [[], [Tok.num 1, Tok.num 2], [Tok.num 3, Tok.num 4]]

/-- See `linesBlankW`. -/
def linesBadW : List (List Tok) := [[Tok.bad], [Tok.num 1, Tok.num 2], [Tok.num 3, Tok.num 4]]

/-! ### Lemmas on decimal printing and parsing (`C10` machinery) -/

lemma digit_char_facts : ∀ d : Fin 10, digitVal (digitChar d.val) = some d.val ∧
    isWS (digitChar d.val) = false ∧ digitChar d.val ≠ '-' ∧ digitChar d.val ≠ '+' ∧
    digitChar d.val ≠ '\n' := by decide

lemma natCharsAux_digits {fuel n : ℕ} {c : Char} (h : c ∈ natCharsAux fuel n) :
    ∃ d : ℕ, d < 10 ∧ c = digitChar d := by
  induction fuel generalizing n with
  | zero => simp [natCharsAux] at h
  | succ fuel ih =>
      rw [natCharsAux] at h
      by_cases h0 : n = 0
      · simp [h0] at h
      · rw [if_neg h0, List.mem_append] at h
        rcases h with h | h
        · exact ih h
        · refine ⟨n % 10, Nat.mod_lt _ (by norm_num), ?_⟩
          simpa using h

lemma natChars_digits {n : ℕ} {c : Char} (h : c ∈ natChars n) :
    ∃ d : ℕ, d < 10 ∧ c = digitChar d := by
  rw [natChars] at h
  by_cases h0 : n = 0
  · exact ⟨0, by norm_num, by simpa [h0] using h⟩
  · exact natCharsAux_digits (by simpa [h0] using h)

lemma natChars_ne_nil (n : ℕ) : natChars n ≠ [] := by
  rw [natChars]
  by_cases h0 : n = 0
  · simp [h0]
  · rw [if_neg h0]
    cases n with
    | zero => exact absurd rfl h0
    | succ m =>
        rw [natCharsAux, if_neg h0]
        simp

lemma digitsValAux_append (acc : ℕ) (xs ys : List Char) :
    digitsValAux acc (xs ++ ys) =
      match digitsValAux acc xs with
      | some a => digitsValAux a ys
      | none => none := by
  induction xs generalizing acc with
  | nil => simp [digitsValAux]
  | cons c cs ih =>
      rw [List.cons_append, digitsValAux, digitsValAux]
      cases digitVal c with
      | some v => exact ih (acc * 10 + v)
      | none => rfl

lemma digitsValAux_natCharsAux (fuel : ℕ) :
    ∀ n acc : ℕ, n ≤ fuel →
      digitsValAux acc (natCharsAux fuel n) =
        some (acc * 10 ^ (natCharsAux fuel n).length + n) := by
  induction fuel with
  | zero =>
      intro n acc h
      interval_cases n
      simp [natCharsAux, digitsValAux]
  | succ fuel ih =>
      intro n acc h
      by_cases h0 : n = 0
      · simp [h0, natCharsAux, digitsValAux]
      · rw [natCharsAux, if_neg h0]
        have hdiv : n / 10 ≤ fuel := by omega
        rw [digitsValAux_append, ih (n / 10) acc hdiv]
        have hd := digit_char_facts ⟨n % 10, Nat.mod_lt _ (by norm_num)⟩
        simp only [digitsValAux, hd.1]
        have harith : (acc * 10 ^ (natCharsAux fuel (n / 10)).length + n / 10) * 10 + n % 10 =
            acc * 10 ^ (natCharsAux fuel (n / 10) ++ [digitChar (n % 10)]).length + n := by
          rw [List.length_append, List.length_singleton, pow_succ]
          have := Nat.div_add_mod n 10
          ring_nf
          omega
        rw [harith]

lemma digitsValAux_natChars (n : ℕ) : digitsValAux 0 (natChars n) = some n := by
  rw [natChars]
  by_cases h0 : n = 0
  · simp [h0, digitsValAux, digitVal, digitChar]
  · rw [if_neg h0, digitsValAux_natCharsAux n n 0 (le_refl n)]
    simp

lemma dropWhile_append_all {p : Char → Bool} {xs : List Char} (ys : List Char)
    (h : ∀ c ∈ xs, p c = true) : (xs ++ ys).dropWhile p = ys.dropWhile p := by
  induction xs with
  | nil => rfl
  | cons c cs ih =>
      rw [List.cons_append, List.dropWhile_cons, h c (List.mem_cons_self c cs)]
      exact ih fun x hx => h x (List.mem_cons_of_mem c hx)

lemma dropWhile_of_head_false {p : Char → Bool} {c : Char} {cs : List Char}
    (h : p c = false) : (c :: cs).dropWhile p = c :: cs := by
  rw [List.dropWhile_cons, h]
  simp

lemma intChars_chars {i : ℤ} {c : Char} (h : c ∈ intChars i) : isWS c = false ∧ c ≠ '\n' := by
  rw [intChars] at h
  by_cases hi : i < 0
  · rw [if_pos hi] at h
    rcases List.mem_cons.mp h with rfl | h
    · exact ⟨by decide, by decide⟩
    · obtain ⟨d, hd, rfl⟩ := natChars_digits h
      exact ⟨(digit_char_facts ⟨d, hd⟩).2.1, (digit_char_facts ⟨d, hd⟩).2.2.2.2⟩
  · rw [if_neg hi] at h
    obtain ⟨d, hd, rfl⟩ := natChars_digits h
    exact ⟨(digit_char_facts ⟨d, hd⟩).2.1, (digit_char_facts ⟨d, hd⟩).2.2.2.2⟩

lemma intChars_ne_nil (i : ℤ) : intChars i ≠ [] := by
  rw [intChars]
  by_cases hi : i < 0
  · simp [hi]
  · simpa [hi] using natChars_ne_nil i.natAbs

lemma stripWS_line (i : ℤ) (pre : List Char) (hpre : ∀ c ∈ pre, c = ' ') :
    stripWS (pre ++ intChars i ++ ['\n']) = intChars i := by
  obtain ⟨c0, r0, h0⟩ := List.exists_cons_of_ne_nil (intChars_ne_nil i)
  have hc0 : isWS c0 = false := (intChars_chars (h0 ▸ List.mem_cons_self c0 r0)).1
  obtain ⟨c1, r1, h1⟩ : ∃ c1 r1, (intChars i).reverse = c1 :: r1 :=
    List.exists_cons_of_ne_nil (by simpa using intChars_ne_nil i)
  have hc1mem : c1 ∈ intChars i := by
    rw [← List.mem_reverse, h1]; exact List.mem_cons_self c1 r1
  have hc1 : isWS c1 = false := (intChars_chars hc1mem).1
  rw [stripWS, List.append_assoc,
    dropWhile_append_all _ (fun c hc => by rw [hpre c hc]; rfl)]
  rw [show intChars i ++ ['\n'] = c0 :: (r0 ++ ['\n']) by rw [h0]; rfl,
    dropWhile_of_head_false hc0,
    show c0 :: (r0 ++ ['\n']) = intChars i ++ ['\n'] by rw [h0]; rfl]
  rw [show (intChars i ++ ['\n']).reverse = '\n' :: (intChars i).reverse by simp]
  rw [show ('\n' :: (intChars i).reverse).dropWhile isWS = ((intChars i).reverse).dropWhile isWS
      from by rw [List.dropWhile_cons]; rfl]
  rw [h1, dropWhile_of_head_false hc1, ← h1, List.reverse_reverse]

lemma pyIntParse_intChars (i : ℤ) (pre : List Char) (hpre : ∀ c ∈ pre, c = ' ') :
    pyIntParse (pre ++ intChars i ++ ['\n']) = .ok i := by
  rw [pyIntParse]
  rw [stripWS_line i pre hpre]
  by_cases hi : i < 0
  · rw [show intChars i = '-' :: natChars i.natAbs from by rw [intChars, if_pos hi]]
    obtain ⟨c1, r1, h1⟩ := List.exists_cons_of_ne_nil (natChars_ne_nil i.natAbs)
    have hv : digitsValAux 0 (natChars i.natAbs) = some i.natAbs := digitsValAux_natChars _
    rw [h1] at hv
    simp only [h1, hv]
    rw [if_pos trivial]
    congr 1
    omega
  · obtain ⟨c0, r0, h0⟩ : ∃ c0 r0, intChars i = c0 :: r0 :=
      List.exists_cons_of_ne_nil (intChars_ne_nil i)
    have hmem : c0 ∈ intChars i := h0 ▸ List.mem_cons_self c0 r0
    obtain ⟨d, hd, rfl⟩ : ∃ d : ℕ, d < 10 ∧ c0 = digitChar d := by
      rw [intChars, if_neg hi] at hmem
      exact natChars_digits hmem
    have hdash : digitChar d ≠ '-' := (digit_char_facts ⟨d, hd⟩).2.2.1
    have hplus : digitChar d ≠ '+' := (digit_char_facts ⟨d, hd⟩).2.2.2.1
    have hv : digitsValAux 0 (intChars i) = some i.natAbs := by
      rw [intChars, if_neg hi]; exact digitsValAux_natChars _
    rw [h0] at hv
    simp only [h0, if_neg hdash, if_neg hplus, hv]
    congr 1
    omega

lemma pyIntParse_spaces (l : List Char) (h : ∀ c ∈ l, c = ' ') :
    pyIntParse l = .err .valueError := by
  have h1 : l.dropWhile isWS = [] :=
    List.dropWhile_eq_nil_iff.mpr fun c hc => by rw [h c hc]; rfl
  have : stripWS l = [] := by rw [stripWS, h1]; rfl
  rw [pyIntParse, this]

lemma splitLinesAux_append_no_newline (xs : List Char) {zs acc : List Char}
    (h : ∀ c ∈ xs, c ≠ '\n') :
    splitLinesAux (xs ++ zs) acc = splitLinesAux zs (xs.reverse ++ acc) := by
  induction xs generalizing acc with
  | nil => rfl
  | cons c cs ih =>
      rw [List.cons_append, splitLinesAux, if_neg (by simpa using h c (List.mem_cons_self c cs)),
        ih fun x hx => h x (List.mem_cons_of_mem c hx)]
      simp

lemma readRouteAux_writeRoute (route : List ℤ) :
    ∀ (acc : List Char) (out : List ℤ), (∀ c ∈ acc, c = ' ') →
      readRouteAux (splitLinesAux ((route.map fun i => intChars i ++ ['\n', ' ']).flatten) acc) out
        = out ++ route := by
  induction route with
  | nil =>
      intro acc out h
      by_cases ha : acc = []
      · simp [ha, splitLinesAux, readRouteAux]
      · rw [List.map_nil, List.flatten_nil, splitLinesAux, if_neg ha, readRouteAux,
          pyIntParse_spaces _ fun c hc => h c (List.mem_reverse.mp hc)]
        simp [readRouteAux]
  | cons i rest ih =>
      intro acc out h
      rw [List.map_cons, List.flatten_cons, List.append_assoc,
        show ['\n', ' '] ++ (rest.map fun i => intChars i ++ ['\n', ' ']).flatten =
          '\n' :: (' ' :: (rest.map fun i => intChars i ++ ['\n', ' ']).flatten) from rfl,
        splitLinesAux_append_no_newline _ fun c hc => (intChars_chars hc).2,
        splitLinesAux, if_pos rfl]
      rw [show (' ' :: (rest.map fun i => intChars i ++ ['\n', ' ']).flatten) =
          [' '] ++ (rest.map fun i => intChars i ++ ['\n', ' ']).flatten from rfl,
        splitLinesAux_append_no_newline _ (by intro c hc; simp at hc; subst hc; decide)]
      rw [readRouteAux]
      have hline : pyIntParse (((intChars i).reverse ++ acc).reverse ++ ['\n']) = .ok i := by
        rw [show (((intChars i).reverse ++ acc).reverse : List Char) ++ ['\n'] =
            acc.reverse ++ intChars i ++ ['\n'] from by simp]
        exact pyIntParse_intChars i acc.reverse fun c hc => h c (List.mem_reverse.mp hc)
      simp only [hline, List.reverse_cons, List.reverse_nil, List.nil_append, List.append_nil]
      rw [ih [' '] (out ++ [i]) (by intro c hc; simpa using hc)]
      simp

/-- C10: writing any integer sequence with `write_route_to_file` (one
integer per line, each line followed by a stray leading space on the
next) and reading the text back with `read_route_from_file` yields
exactly the original sequence. -/
theorem c10_write_read_round_trip (route : List ℤ) :
    readRouteFromFile (splitLines (writeRouteChars route)) = route := by
  rw [readRouteFromFile, splitLines, writeRouteChars,
    readRouteAux_writeRoute route [] [] (by intro c hc; simp at hc)]
  simp

/-! ### Lemmas for the cities reader (`C3`) -/

lemma readCitiesAux_wellFormed (lines : List (List Tok)) :
    ∀ acc : List (ℚ × ℚ),
      (∀ l ∈ lines, l = [] ∨ ∃ x y rest, l = Tok.num x :: Tok.num y :: rest) →
      readCitiesAux lines acc = .ok (acc ++ lines.filterMap lineParse) := by
  induction lines with
  | nil => intro acc _; simp [readCitiesAux]
  | cons l rest ih =>
      intro acc h
      have hrest := fun l2 hl2 => h l2 (List.mem_cons_of_mem _ hl2)
      rcases h l (List.mem_cons_self l rest) with rfl | ⟨x, y, r, rfl⟩
      · simp only [readCitiesAux, List.length_nil, lt_irrefl, if_neg (by norm_num : ¬ 0 < 0)]
        rw [ih _ hrest]
        simp [lineParse]
      · rw [show readCitiesAux ((Tok.num x :: Tok.num y :: r) :: rest) acc =
            readCitiesAux rest (acc ++ [(x, y)]) from rfl, ih _ hrest]
        simp [lineParse, List.filterMap_cons]

/-- C3 (corrected): the source's loader does not skip non-blank
malformed lines.  On a file with one malformed line (a token `float`
rejects) and two valid lines, `read_cities_from_file` raises
`ValueError` instead of returning the two parsed cities that the claim
demands. -/
theorem c3_malformed_line_counterexample :
    readCitiesFromFile linesBadW = .err .valueError ∧
    readCitiesFromFile linesBadW ≠ .ok [(1, 2), (3, 4)] := by decide

/-- C3 (amended): only lines with zero whitespace tokens (blank lines)
are skipped; every line whose first two tokens parse as numbers
contributes exactly its `(x, y)` pair, extra tokens ignored.  (A
non-blank line whose tokens do not parse raises instead of being
skipped — see the counterexample.) -/
theorem c3_blank_lines_skipped (lines : List (List Tok))
    (h : ∀ l ∈ lines, l = [] ∨ ∃ x y rest, l = Tok.num x :: Tok.num y :: rest) :
    readCitiesFromFile lines = .ok (lines.filterMap lineParse) := by
  rw [readCitiesFromFile, readCitiesAux_wellFormed lines [] h]
  simp

/-- C3 witness: a file with one blank line and two valid lines yields
exactly the two parsed cities. -/
theorem c3_blank_lines_skipped_witness :
    readCitiesFromFile linesBlankW = .ok [(1, 2), (3, 4)] := by
  have h := c3_blank_lines_skipped linesBlankW (by
    intro l hl
    simp only [linesBlankW, List.mem_cons, List.not_mem_nil, or_false] at hl
    rcases hl with rfl | rfl | rfl
    · left; rfl
    · right; exact ⟨1, 2, [], rfl⟩
    · right; exact ⟨3, 4, [], rfl⟩)
  rw [h]
  decide

/-! ### Lemmas for the distance matrix (`C9`) -/

lemma getD_map_range {α : Type} {n i : ℕ} (hi : i < n) (f : ℕ → α) (dflt : α) :
    ((List.range n).map f).getD i dflt = f i := by
  rw [List.getD_eq_getElem?_getD, List.getElem?_map, List.getElem?_range hi]
  rfl

lemma calculateDistances_entry (cities : List (ℚ × ℚ)) (i j : ℕ)
    (hi : i < cities.length) (hj : j < cities.length) :
    dmEntry (calculateDistances cities) i j =
      Real.sqrt ((((cities.getD i (0, 0)).1 : ℝ) - ((cities.getD j (0, 0)).1 : ℝ)) *
                   (((cities.getD i (0, 0)).1 : ℝ) - ((cities.getD j (0, 0)).1 : ℝ)) +
                 (((cities.getD i (0, 0)).2 : ℝ) - ((cities.getD j (0, 0)).2 : ℝ)) *
                   (((cities.getD i (0, 0)).2 : ℝ) - ((cities.getD j (0, 0)).2 : ℝ))) := by
  rw [dmEntry, calculateDistances, getD_map_range hi, getD_map_range hj]

lemma calculateDistances_row_length (cities : List (ℚ × ℚ)) (i : ℕ)
    (hi : i < cities.length) :
    ((calculateDistances cities).getD i []).length = cities.length := by
  rw [calculateDistances, getD_map_range hi]
  simp

/-- C9: `calculate_distances` returns an `N × N` matrix whose `(i, j)`
entry is the Euclidean distance `sqrt((xi-xj)^2 + (yi-yj)^2)`; the
matrix is symmetric with zero diagonal, and an empty city list yields
the empty matrix. -/
theorem c9_distance_matrix (cities : List (ℚ × ℚ)) (i j : ℕ)
    (hi : i < cities.length) (hj : j < cities.length) :
    (calculateDistances cities).length = cities.length ∧
    ((calculateDistances cities).getD i []).length = cities.length ∧
    dmEntry (calculateDistances cities) i j =
      Real.sqrt ((((cities.getD i (0, 0)).1 : ℝ) - ((cities.getD j (0, 0)).1 : ℝ)) ^ 2 +
                 (((cities.getD i (0, 0)).2 : ℝ) - ((cities.getD j (0, 0)).2 : ℝ)) ^ 2) ∧
    dmEntry (calculateDistances cities) i j = dmEntry (calculateDistances cities) j i ∧
    dmEntry (calculateDistances cities) i i = 0 ∧
    calculateDistances [] = [] := by
  refine ⟨by simp [calculateDistances], calculateDistances_row_length cities i hi, ?_, ?_, ?_,
    by simp [calculateDistances]⟩
  · rw [calculateDistances_entry cities i j hi hj]
    congr 1
    ring
  · rw [calculateDistances_entry cities i j hi hj, calculateDistances_entry cities j i hj hi]
    congr 1
    ring
  · rw [calculateDistances_entry cities i i hi hi]
    simp

/-- C9 witness: the properties instantiated on a concrete two-city list. -/
theorem c9_distance_matrix_witness :
    (0 < citiesW.length) ∧ (1 < citiesW.length) ∧
    dmEntry (calculateDistances citiesW) 0 1 = dmEntry (calculateDistances citiesW) 1 0 ∧
    dmEntry (calculateDistances citiesW) 0 0 = 0 :=
  ⟨by norm_num [citiesW], by norm_num [citiesW],
    (c9_distance_matrix citiesW 0 1 (by norm_num [citiesW]) (by norm_num [citiesW])).2.2.2.1,
    (c9_distance_matrix citiesW 0 1 (by norm_num [citiesW]) (by norm_num [citiesW])).2.2.2.2.1⟩

/-! ### Lemmas for `swap_cities` (`C5`, `C6`) -/

lemma filterMap_congr_mem {α β : Type} {f g : α → Option β} :
    ∀ {l : List α}, (∀ a ∈ l, f a = g a) → l.filterMap f = l.filterMap g := by
  intro l
  induction l with
  | nil => intro _; rfl
  | cons a t ih =>
      intro h
      rw [List.filterMap_cons, List.filterMap_cons, h a (List.mem_cons_self a t),
        ih fun x hx => h x (List.mem_cons_of_mem a hx)]

lemma rev_slice_aux (l : List ℕ) :
    ∀ (n j : ℕ), j + n < l.length →
      (List.range n).filterMap (fun t => l.get? (j + n - t)) =
        ((l.drop (j + 1)).take n).reverse := by
  intro n
  induction n with
  | zero => intro j _; simp
  | succ n ih =>
      intro j h
      rw [List.range_succ, List.filterMap_append]
      have hjlt : j + 1 < l.length := by omega
      have h2 : (List.range n).filterMap (fun t => l.get? (j + (n + 1) - t)) =
          (List.range n).filterMap (fun t => l.get? ((j + 1) + n - t)) := by
        apply filterMap_congr_mem
        intro t _
        congr 1
        omega
      rw [h2, ih (j + 1) (by omega)]
      have h3 : ([n] : List ℕ).filterMap (fun t => l.get? (j + (n + 1) - t)) =
          [l.get ⟨j + 1, hjlt⟩] := by
        rw [List.filterMap_cons]
        rw [show j + (n + 1) - n = j + 1 from by omega]
        rw [List.get?_eq_get hjlt]
        rfl
      rw [h3]
      have h4 : l.drop (j + 1) = l.get ⟨j + 1, hjlt⟩ :: l.drop (j + 2) := by
        rw [List.drop_eq_getElem_cons hjlt]
        rfl
      rw [h4, List.take_succ_cons, List.reverse_cons]

lemma pySliceNeg_eq (l : List ℕ) (i j : ℕ) (hij : j ≤ i) (hi : i < l.length) :
    pySliceNeg l i j = ((l.drop (j + 1)).take (i - j)).reverse := by
  obtain ⟨n, rfl⟩ : ∃ n, i = j + n := ⟨i - j, by omega⟩
  rw [pySliceNeg, show j + n - j = n from by omega]
  exact rev_slice_aux l n j hi

lemma pySlice1_zero (l : List ℕ) (j : ℕ) : pySlice1 l 0 j = l.take j := by
  rw [pySlice1, List.drop_zero]

lemma pySlice1_to_length (l : List ℕ) (i : ℕ) : pySlice1 l i l.length = l.drop i := by
  rw [pySlice1, List.take_length]

lemma drawDistinct_ok {si : ℕ → ℕ} {c1 m : ℕ} (hm : 1 ≤ m) :
    ∀ {fuel p c p2 : ℕ}, drawDistinct si c1 m p fuel = .ok (c, p2) →
      2 ≤ c ∧ c ≤ m + 1 ∧ c ≠ c1 := by
  intro fuel
  induction fuel with
  | zero => intro p c p2 h; exact absurd h (by rw [drawDistinct]; intro h; cases h)
  | succ fuel ih =>
      intro p c p2 h
      rw [drawDistinct] at h
      by_cases hne : c1 ≠ 2 + si p % m
      · rw [if_pos hne] at h
        injection h with h1
        injection h1 with h1 h2
        subst h1
        refine ⟨by omega, ?_, fun hc => hne hc.symm⟩
        have := Nat.mod_lt (si p) (show 0 < m from hm)
        omega
      · rw [if_neg hne] at h
        exact ih h

lemma swapDraw_ok {route : List ℕ} {si : ℕ → ℕ} {p fuel c1 c2 p2 : ℕ}
    (h : swapDraw route si p fuel = .ok (c1, c2, p2)) :
    4 ≤ route.length ∧ 2 ≤ c1 ∧ c1 < c2 ∧ c2 + 2 ≤ route.length := by
  by_cases h4 : 4 ≤ route.length
  · rw [swapDraw, if_pos h4] at h
    have hm : 1 ≤ route.length - 3 := by omega
    set m := route.length - 3 with hmdef
    set craw := 2 + si p % m with hcraw
    have hcrawlt : craw ≤ m + 1 := by
      have := Nat.mod_lt (si p) (show 0 < m from hm)
      omega
    cases hdd : drawDistinct si craw m (p + 1) fuel with
    | err e => rw [hdd] at h; cases h
    | timeout => rw [hdd] at h; cases h
    | ok pr =>
        obtain ⟨cc, pp⟩ := pr
        have hfacts := drawDistinct_ok hm hdd
        rw [hdd] at h
        by_cases hlt : cc < craw
        · rw [show (Res.ok (cc, pp)).bind (fun pr =>
              if pr.1 < craw then Res.ok (pr.1, craw, pr.2) else Res.ok (craw, pr.1, pr.2)) =
              Res.ok (cc, craw, pp) from by rw [Res.bind]; simp [hlt]] at h
          injection h with h1
          injection h1 with ha hb
          injection hb with hb hc
          subst ha; subst hb
          refine ⟨h4, hfacts.1, hlt, by omega⟩
        · rw [show (Res.ok (cc, pp)).bind (fun pr =>
              if pr.1 < craw then Res.ok (pr.1, craw, pr.2) else Res.ok (craw, pr.1, pr.2)) =
              Res.ok (craw, cc, pp) from by rw [Res.bind]; simp [hlt]] at h
          injection h with h1
          injection h1 with ha hb
          injection hb with hb hc
          subst ha; subst hb
          have : craw < cc := by
            rcases Nat.lt_or_ge craw cc with h | h
            · exact h
            · exact absurd (by omega : cc = craw) hfacts.2.2
          exact ⟨h4, by omega, this, by omega⟩
  · rw [swapDraw, if_neg h4] at h
    cases h

lemma swapCities_ok_spec {route : List ℕ} {si : ℕ → ℕ} {p fuel : ℕ} {r2 : List ℕ} {p2 : ℕ}
    (h : swapCities route si p fuel = .ok (r2, p2)) :
    ∃ c1 c2, swapDraw route si p fuel = .ok (c1, c2, p2) ∧
      2 ≤ c1 ∧ c1 < c2 ∧ c2 + 2 ≤ route.length ∧
      r2 = route.take (c1 - 1) ++
             ((route.drop (c1 - 1)).take (c2 - c1 + 2)).reverse ++
             route.drop (c2 + 1) := by
  cases hd : swapDraw route si p fuel with
  | err e => rw [swapCities, hd] at h; cases h
  | timeout => rw [swapCities, hd] at h; cases h
  | ok c =>
      obtain ⟨c1, c2, pp⟩ := c
      rw [swapCities, hd, Res.bind] at h
      injection h with h1
      injection h1 with ha hb
      subst hb
      obtain ⟨h4, hc1, hc12, hc2len⟩ := swapDraw_ok hd
      refine ⟨c1, c2, rfl, hc1, hc12, hc2len, ?_⟩
      rw [← ha, pySlice1_zero, pySlice1_to_length,
        pySliceNeg_eq route c2 (c1 - 2) (by omega) (by omega),
        show c1 - 2 + 1 = c1 - 1 from by omega,
        show c2 - (c1 - 2) = c2 - c1 + 2 from by omega]

lemma head?_append_left {A B : List ℕ} (h : A ≠ []) : (A ++ B).head? = A.head? := by
  cases A with
  | nil => exact absurd rfl h
  | cons a t => rfl

lemma head?_take_pos {l : List ℕ} {k : ℕ} (h : 1 ≤ k) : (l.take k).head? = l.head? := by
  cases l with
  | nil => simp
  | cons a t =>
      cases k with
      | zero => omega
      | succ k => rfl

lemma getLast?_append_right {A B : List ℕ} (h : B ≠ []) : (A ++ B).getLast? = B.getLast? := by
  rw [← List.head?_reverse, List.reverse_append,
    head?_append_left (by simpa using h), List.head?_reverse]

/-- C5: on a tour of length `N + 1` (`N ≥ 4`), the two positions drawn by
`swap_cities` are distinct, ordered, and lie in the half-open range
`[2, N)`, and the returned tour is exactly the unchanged positions
`[0, city1-1)`, then the slice `[city1-1, city2]` read backward, then
the unchanged positions `(city2, end]`. -/
theorem c5_swap_slices (route : List ℕ) (si : ℕ → ℕ) (p fuel : ℕ) (r2 : List ℕ)
    (p2 c1 c2 N : ℕ) (hlen : route.length = N + 1) (hN : 4 ≤ N)
    (hd : swapDraw route si p fuel = .ok (c1, c2, p2))
    (hs : swapCities route si p fuel = .ok (r2, p2)) :
    2 ≤ c1 ∧ c1 < c2 ∧ c2 < N ∧
    r2 = route.take (c1 - 1) ++
           ((route.drop (c1 - 1)).take (c2 - c1 + 2)).reverse ++
           route.drop (c2 + 1) := by
  obtain ⟨c1', c2', hd', hc1, hc12, hc2len, hr⟩ := swapCities_ok_spec hs
  rw [hd] at hd'
  injection hd' with h1
  injection h1 with ha hb
  injection hb with hb hc
  subst ha; subst hb
  exact ⟨hc1, hc12, by omega, hr⟩

/-- C6: `swap_cities` preserves the tour invariants: same length, same
first and last element, the entries are a permutation of the input's
entries, and the first `N` positions remain a permutation of `0..N-1`. -/
theorem c6_swap_preserves_tour (route : List ℕ) (si : ℕ → ℕ) (p fuel : ℕ) (r2 : List ℕ)
    (p2 N : ℕ) (hlen : route.length = N + 1) (hN : 4 ≤ N)
    (hanchor : route.head? = route.getLast?)
    (hperm : (route.take N).Perm (List.range N))
    (hs : swapCities route si p fuel = .ok (r2, p2)) :
    r2.length = route.length ∧ r2.head? = route.head? ∧ r2.getLast? = route.getLast? ∧
    r2.Perm route ∧ (r2.take N).Perm (List.range N) := by
  obtain ⟨c1, c2, hd, hc1, hc12, hc2len, hr⟩ := swapCities_ok_spec hs
  have hrne : route ≠ [] := by
    intro hnil
    rw [hnil] at hlen
    simp at hlen
  have hsplit : route = route.take (c1 - 1) ++ (route.drop (c1 - 1)).take (c2 - c1 + 2) ++
      route.drop (c2 + 1) := by
    conv_lhs => rw [← List.take_append_drop (c1 - 1) route]
    rw [List.append_assoc]
    congr 1
    conv_lhs => rw [← List.take_append_drop (c2 - c1 + 2) (route.drop (c1 - 1))]
    congr 1
    rw [List.drop_drop]
    congr 1
    omega
  have hperm2 : r2.Perm route := by
    rw [hr]
    conv_rhs => rw [hsplit]
    exact List.Perm.append_right _ (List.Perm.append_left _ (List.reverse_perm _))
  have hAne : route.take (c1 - 1) ≠ [] := by
    rw [Ne, List.take_eq_nil_iff]
    push_neg
    exact ⟨by omega, hrne⟩
  have hBne : route.drop (c2 + 1) ≠ [] := by
    rw [Ne, List.drop_eq_nil_iff]
    omega
  have hhead : r2.head? = route.head? := by
    rw [hr, List.append_assoc, head?_append_left hAne, head?_take_pos (by omega)]
  have hlast : r2.getLast? = route.getLast? := by
    rw [hr, getLast?_append_right hBne]
    conv_rhs => rw [hsplit]
    rw [getLast?_append_right hBne]
  refine ⟨hperm2.length_eq, hhead, hlast, hperm2, ?_⟩
  have hr2len : r2.length = N + 1 := by rw [hperm2.length_eq, hlen]
  obtain ⟨a, ha⟩ := List.length_eq_one.mp
    (show (r2.drop N).length = 1 by rw [List.length_drop, hr2len]; omega)
  obtain ⟨b, hb⟩ := List.length_eq_one.mp
    (show (route.drop N).length = 1 by rw [List.length_drop, hlen]; omega)
  have h1 : r2.getLast? = some a := by
    conv_lhs => rw [← List.take_append_drop N r2]
    rw [ha, List.getLast?_concat]
  have h2 : route.getLast? = some b := by
    conv_lhs => rw [← List.take_append_drop N route]
    rw [hb, List.getLast?_concat]
  have hab : a = b := by
    have h3 := hlast
    rw [h1, h2] at h3
    injection h3
  have hcount : ∀ v : ℕ, (r2.take N).count v = (route.take N).count v := by
    intro v
    have e1 : ((r2.take N).count v) + ((r2.drop N).count v) = r2.count v := by
      rw [← List.count_append, List.take_append_drop]
    have e2 : ((route.take N).count v) + ((route.drop N).count v) = route.count v := by
      rw [← List.count_append, List.take_append_drop]
    have e3 : r2.count v = route.count v := hperm2.count_eq v
    rw [ha] at e1
    rw [hb] at e2
    rw [hab] at e1
    omega
  exact (List.perm_iff_count.mpr hcount).trans hperm

/-- C5 witness: the concrete draw (2, 4) on the 6-entry tour `routeW`. -/
theorem c5_swap_slices_witness :
    2 ≤ 2 ∧ 2 < 4 ∧ 4 < 5 ∧
    ([0, 4, 3, 2, 1, 0] : List ℕ) =
      routeW.take (2 - 1) ++ ((routeW.drop (2 - 1)).take (4 - 2 + 2)).reverse ++
        routeW.drop (4 + 1) :=
  c5_swap_slices routeW siW 0 9 [0, 4, 3, 2, 1, 0] 2 2 4 5 rfl (by norm_num)
    (by decide) (by decide)

/-- C6 witness: the tour invariants hold for the concrete swap on `routeW`. -/
theorem c6_swap_preserves_tour_witness :
    ([0, 4, 3, 2, 1, 0] : List ℕ).length = routeW.length ∧
    ([0, 4, 3, 2, 1, 0] : List ℕ).head? = routeW.head? ∧
    ([0, 4, 3, 2, 1, 0] : List ℕ).getLast? = routeW.getLast? ∧
    ([0, 4, 3, 2, 1, 0] : List ℕ).Perm routeW ∧
    (([0, 4, 3, 2, 1, 0] : List ℕ).take 5).Perm (List.range 5) :=
  c6_swap_preserves_tour routeW siW 0 9 [0, 4, 3, 2, 1, 0] 2 5 rfl (by norm_num)
    (by decide) (by decide) (by decide)

/-! ### Lemmas for the annealing loop (`C1`, `C2`, `C4`, `C7`, `C8`) -/

lemma annealTrial_eq_strict {d : ℕ → ℕ → ℚ} {si : ℕ → ℕ} {sr : ℕ → ℚ} {fuel : ℕ} {dt : ℚ}
    {st : AState} {nr : List ℕ} {ip2 : ℕ}
    (hs : swapCities st.cur si st.ip fuel = .ok (nr, ip2))
    (h1 : getTripLength d nr < st.curLen) :
    annealTrial d si sr fuel dt st =
      .ok ⟨nr, getTripLength d nr,
           if getTripLength d nr < st.bestLen then nr else st.best,
           if getTripLength d nr < st.bestLen then getTripLength d nr else st.bestLen,
           st.temp + dt, ip2, st.rp⟩ := by
  simp only [annealTrial, hs]
  rw [if_pos h1]

lemma annealTrial_eq_accept {d : ℕ → ℕ → ℚ} {si : ℕ → ℕ} {sr : ℕ → ℚ} {fuel : ℕ} {dt : ℚ}
    {st : AState} {nr : List ℕ} {ip2 : ℕ}
    (hs : swapCities st.cur si st.ip fuel = .ok (nr, ip2))
    (h1 : ¬ getTripLength d nr < st.curLen)
    (h2 : acceptReal (sr st.rp) (getTripLength d nr - st.curLen) st.temp) :
    annealTrial d si sr fuel dt st =
      .ok ⟨nr, getTripLength d nr, st.best, st.bestLen, st.temp + dt, ip2, st.rp + 1⟩ := by
  simp only [annealTrial, hs]
  rw [if_neg h1, if_pos h2]

lemma annealTrial_eq_reject {d : ℕ → ℕ → ℚ} {si : ℕ → ℕ} {sr : ℕ → ℚ} {fuel : ℕ} {dt : ℚ}
    {st : AState} {nr : List ℕ} {ip2 : ℕ}
    (hs : swapCities st.cur si st.ip fuel = .ok (nr, ip2))
    (h1 : ¬ getTripLength d nr < st.curLen)
    (h2 : ¬ acceptReal (sr st.rp) (getTripLength d nr - st.curLen) st.temp) :
    annealTrial d si sr fuel dt st =
      .ok ⟨st.cur, st.curLen, st.best, st.bestLen, st.temp + dt, ip2, st.rp + 1⟩ := by
  simp only [annealTrial, hs]
  rw [if_neg h1, if_neg h2]

lemma annealTrial_ok_spec {d : ℕ → ℕ → ℚ} {si : ℕ → ℕ} {sr : ℕ → ℚ} {fuel : ℕ} {dt : ℚ}
    {st st2 : AState} (h : annealTrial d si sr fuel dt st = .ok st2) :
    ∃ nr ip2, swapCities st.cur si st.ip fuel = .ok (nr, ip2) ∧
      ((getTripLength d nr < st.curLen ∧
          st2 = ⟨nr, getTripLength d nr,
                 if getTripLength d nr < st.bestLen then nr else st.best,
                 if getTripLength d nr < st.bestLen then getTripLength d nr else st.bestLen,
                 st.temp + dt, ip2, st.rp⟩) ∨
       (st.curLen ≤ getTripLength d nr ∧
          acceptReal (sr st.rp) (getTripLength d nr - st.curLen) st.temp ∧
          st2 = ⟨nr, getTripLength d nr, st.best, st.bestLen, st.temp + dt, ip2, st.rp + 1⟩) ∨
       (st.curLen ≤ getTripLength d nr ∧
          ¬ acceptReal (sr st.rp) (getTripLength d nr - st.curLen) st.temp ∧
          st2 = ⟨st.cur, st.curLen, st.best, st.bestLen, st.temp + dt, ip2, st.rp + 1⟩)) := by
  cases hsw : swapCities st.cur si st.ip fuel with
  | err e => rw [annealTrial, hsw] at h; cases h
  | timeout => rw [annealTrial, hsw] at h; cases h
  | ok pr =>
      obtain ⟨nr, ip2⟩ := pr
      refine ⟨nr, ip2, rfl, ?_⟩
      by_cases h1 : getTripLength d nr < st.curLen
      · left
        rw [annealTrial_eq_strict hsw h1] at h
        injection h with h2
        exact ⟨h1, h2.symm⟩
      · by_cases h2 : acceptReal (sr st.rp) (getTripLength d nr - st.curLen) st.temp
        · right; left
          rw [annealTrial_eq_accept hsw h1 h2] at h
          injection h with h3
          exact ⟨not_lt.mp h1, h2, h3.symm⟩
        · right; right
          rw [annealTrial_eq_reject hsw h1 h2] at h
          injection h with h3
          exact ⟨not_lt.mp h1, h2, h3.symm⟩

lemma annealLoop_succ (d : ℕ → ℕ → ℚ) (si : ℕ → ℕ) (sr : ℕ → ℚ) (fuel : ℕ) (dt : ℚ)
    (n : ℕ) (st : AState) :
    annealLoop d si sr fuel dt (n + 1) st =
      match annealTrial d si sr fuel dt st with
      | .err e => .err e
      | .timeout => .timeout
      | .ok st2 => annealLoop d si sr fuel dt n st2 := rfl

lemma optimizeRoute_eq (route : List ℕ) (d : ℕ → ℕ → ℚ) (t0 : ℚ) (trials : ℕ) (t1 : ℚ)
    (si : ℕ → ℕ) (sr : ℕ → ℚ) (fuel : ℕ) :
    optimizeRoute route d t0 trials t1 si sr fuel =
      match pyDiv (t1 - t0) ((trials : ℚ) - 1) with
      | .err e => .err e
      | .timeout => .timeout
      | .ok dt =>
          match annealLoop d si sr fuel dt trials
              ⟨route, getTripLength d route, route, getTripLength d route, t0, 0, 0⟩ with
          | .err e => .err e
          | .timeout => .timeout
          | .ok st => .ok st.best := rfl

lemma trial_le_preserved {d : ℕ → ℕ → ℚ} {si : ℕ → ℕ} {sr : ℕ → ℚ} {fuel : ℕ} {dt : ℚ}
    {st st2 : AState} (h : annealTrial d si sr fuel dt st = .ok st2)
    (hinv : st.bestLen ≤ st.curLen) :
    st2.bestLen ≤ st2.curLen ∧ st2.bestLen ≤ st.bestLen := by
  obtain ⟨nr, ip2, hsw, hcase⟩ := annealTrial_ok_spec h
  rcases hcase with ⟨h1, rfl⟩ | ⟨h1, h2, rfl⟩ | ⟨h1, h2, rfl⟩
  · by_cases hb : getTripLength d nr < st.bestLen
    · simp only [if_pos hb]
      exact ⟨le_refl _, le_of_lt hb⟩
    · simp only [if_neg hb]
      exact ⟨not_lt.mp hb, le_refl _⟩
  · exact ⟨le_trans hinv h1, le_refl _⟩
  · exact ⟨hinv, le_refl _⟩

lemma trial_best_preserved {d : ℕ → ℕ → ℚ} {si : ℕ → ℕ} {sr : ℕ → ℚ} {fuel : ℕ} {dt : ℚ}
    {st st2 : AState} {L0 : ℚ} (h : annealTrial d si sr fuel dt st = .ok st2)
    (hbest : getTripLength d st.best = st.bestLen) (hinv : st.bestLen ≤ st.curLen)
    (hle : st.bestLen ≤ L0) :
    getTripLength d st2.best = st2.bestLen ∧ st2.bestLen ≤ st2.curLen ∧ st2.bestLen ≤ L0 := by
  obtain ⟨hcur, hmono⟩ := trial_le_preserved h hinv
  obtain ⟨nr, ip2, hsw, hcase⟩ := annealTrial_ok_spec h
  refine ⟨?_, hcur, le_trans ?_ hle⟩
  · rcases hcase with ⟨h1, rfl⟩ | ⟨h1, h2, rfl⟩ | ⟨h1, h2, rfl⟩
    · by_cases hb : getTripLength d nr < st.bestLen
      · simp only [if_pos hb]
      · simp only [if_neg hb]
        exact hbest
    · exact hbest
    · exact hbest
  · rcases hcase with ⟨h1, rfl⟩ | ⟨h1, h2, rfl⟩ | ⟨h1, h2, rfl⟩ <;> simpa using hmono

lemma loop_best_preserved {d : ℕ → ℕ → ℚ} {si : ℕ → ℕ} {sr : ℕ → ℚ} {fuel : ℕ} {dt : ℚ}
    {L0 : ℚ} :
    ∀ {n : ℕ} {st st2 : AState}, annealLoop d si sr fuel dt n st = .ok st2 →
      getTripLength d st.best = st.bestLen → st.bestLen ≤ st.curLen → st.bestLen ≤ L0 →
      getTripLength d st2.best = st2.bestLen ∧ st2.bestLen ≤ st2.curLen ∧ st2.bestLen ≤ L0 := by
  intro n
  induction n with
  | zero =>
      intro st st2 h hbest hinv hle
      rw [annealLoop] at h
      injection h with h1
      subst h1
      exact ⟨hbest, hinv, hle⟩
  | succ n ih =>
      intro st st2 h hbest hinv hle
      rw [annealLoop_succ] at h
      cases htr : annealTrial d si sr fuel dt st with
      | err e => rw [htr] at h; cases h
      | timeout => rw [htr] at h; cases h
      | ok stm =>
          rw [htr] at h
          obtain ⟨hb2, hc2, hl2⟩ := trial_best_preserved htr hbest hinv hle
          exact ih h hb2 hc2 hl2

lemma loop_le_preserved {d : ℕ → ℕ → ℚ} {si : ℕ → ℕ} {sr : ℕ → ℚ} {fuel : ℕ} {dt : ℚ} :
    ∀ {n : ℕ} {st st2 : AState}, annealLoop d si sr fuel dt n st = .ok st2 →
      st.bestLen ≤ st.curLen → st2.bestLen ≤ st2.curLen := by
  intro n
  induction n with
  | zero =>
      intro st st2 h hinv
      rw [annealLoop] at h
      injection h with h1
      subst h1
      exact hinv
  | succ n ih =>
      intro st st2 h hinv
      rw [annealLoop_succ] at h
      cases htr : annealTrial d si sr fuel dt st with
      | err e => rw [htr] at h; cases h
      | timeout => rw [htr] at h; cases h
      | ok stm =>
          rw [htr] at h
          exact ih h (trial_le_preserved htr hinv).1

lemma gtl_65 : getTripLength dW routeW = 65 := by
  show dW 0 1 + (dW 1 2 + (dW 2 3 + (dW 3 4 + (dW 4 0 + 0)))) = 65
  norm_num [show dW 0 1 = 50 from rfl, show dW 1 2 = 10 from rfl, show dW 2 3 = 2 from rfl,
    show dW 3 4 = 2 from rfl, show dW 4 0 = 1 from rfl]

lemma gtl_41 : getTripLength dW [0, 4, 3, 2, 1, 0] = 41 := by
  show dW 0 4 + (dW 4 3 + (dW 3 2 + (dW 2 1 + (dW 1 0 + 0)))) = 41
  norm_num [show dW 0 4 = 10 from rfl, show dW 4 3 = 10 from rfl, show dW 3 2 = 10 from rfl,
    show dW 2 1 = 10 from rfl, show dW 1 0 = 1 from rfl]

lemma gtl_7 : getTripLength dW [0, 2, 3, 4, 1, 0] = 7 := by
  show dW 0 2 + (dW 2 3 + (dW 3 4 + (dW 4 1 + (dW 1 0 + 0)))) = 7
  norm_num [show dW 0 2 = 1 from rfl, show dW 2 3 = 2 from rfl, show dW 3 4 = 2 from rfl,
    show dW 4 1 = 1 from rfl, show dW 1 0 = 1 from rfl]

lemma eval_trial1 : annealTrial dW siW srW 9 (-49) stW = .ok st1W := by
  have hs : swapCities stW.cur siW stW.ip 9 = .ok ([0, 4, 3, 2, 1, 0], 2) := by decide
  rw [annealTrial_eq_strict hs (by rw [gtl_41]; norm_num [stW])]
  rw [gtl_41]
  norm_num [stW, st1W]

lemma eval_trial2 : annealTrial dW siW srW 9 (-49) st1W = .ok st2W := by
  have hs : swapCities st1W.cur siW st1W.ip 9 = .ok ([0, 2, 3, 4, 1, 0], 4) := by decide
  rw [annealTrial_eq_strict hs (by rw [gtl_7]; norm_num [st1W])]
  rw [gtl_7]
  norm_num [st1W, st2W]

lemma eval_loop2 : annealLoop dW siW srW 9 (-49) 2 stW = .ok st2W := by
  have e1 : annealLoop dW siW srW 9 (-49) 2 stW = annealLoop dW siW srW 9 (-49) 1 st1W := by
    rw [show (2 : ℕ) = 1 + 1 from rfl, annealLoop_succ, eval_trial1]
  have e2 : annealLoop dW siW srW 9 (-49) 1 st1W = annealLoop dW siW srW 9 (-49) 0 st2W := by
    rw [show (1 : ℕ) = 0 + 1 from rfl, annealLoop_succ, eval_trial2]
  rw [e1, e2, annealLoop]

lemma eval_opt : optimizeRoute routeW dW 50 2 1 siW srW 9 = .ok [0, 2, 3, 4, 1, 0] := by
  rw [optimizeRoute_eq]
  rw [show pyDiv (1 - 50) (((2 : ℕ) : ℚ) - 1) = .ok (-49) from by
    rw [pyDiv, if_neg (by norm_num)]
    congr 1
    norm_num]
  show (match annealLoop dW siW srW 9 (-49) 2
      ⟨routeW, getTripLength dW routeW, routeW, getTripLength dW routeW, 50, 0, 0⟩ with
    | Res.err e => Res.err e
    | Res.timeout => Res.timeout
    | Res.ok st => Res.ok st.best) = Res.ok [0, 2, 3, 4, 1, 0]
  rw [show (⟨routeW, getTripLength dW routeW, routeW, getTripLength dW routeW, 50, 0, 0⟩ :
      AState) = stW from by rw [gtl_65]; rfl]
  rw [eval_loop2]
  rfl

/-- C1: in every trial, the candidate produced by `swap_cities` is
accepted unconditionally (current route and length replaced) when it is
strictly shorter; otherwise it is accepted exactly when the one drawn
sample `R` satisfies `R < exp(-dL/k * temperature)` (with `k = 0.01`,
dividing `dL` by `k` and multiplying by the temperature), and on
acceptance by either branch the current route and length are replaced by
the candidate and its length. -/
theorem c1_metropolis_acceptance (d : ℕ → ℕ → ℚ) (si : ℕ → ℕ) (sr : ℕ → ℚ) (fuel : ℕ)
    (dt : ℚ) (st : AState) (nr : List ℕ) (ip2 : ℕ)
    (hs : swapCities st.cur si st.ip fuel = .ok (nr, ip2)) :
    kconst = 1 / 100 ∧
    (getTripLength d nr < st.curLen →
       annealTrial d si sr fuel dt st =
         .ok ⟨nr, getTripLength d nr,
              if getTripLength d nr < st.bestLen then nr else st.best,
              if getTripLength d nr < st.bestLen then getTripLength d nr else st.bestLen,
              st.temp + dt, ip2, st.rp⟩) ∧
    (st.curLen ≤ getTripLength d nr →
       ((sr st.rp : ℝ) <
           Real.exp ((-(getTripLength d nr - st.curLen) / kconst * st.temp : ℚ) : ℝ) →
          annealTrial d si sr fuel dt st =
            .ok ⟨nr, getTripLength d nr, st.best, st.bestLen, st.temp + dt, ip2,
                 st.rp + 1⟩) ∧
       (¬ (sr st.rp : ℝ) <
           Real.exp ((-(getTripLength d nr - st.curLen) / kconst * st.temp : ℚ) : ℝ) →
          annealTrial d si sr fuel dt st =
            .ok ⟨st.cur, st.curLen, st.best, st.bestLen, st.temp + dt, ip2,
                 st.rp + 1⟩)) :=
  ⟨rfl,
   fun h1 => annealTrial_eq_strict hs h1,
   fun h1 =>
     ⟨fun h2 => annealTrial_eq_accept hs (not_lt.mpr h1) h2,
      fun h2 => annealTrial_eq_reject hs (not_lt.mpr h1) h2⟩⟩

/-- C1 witness: the strict-improvement branch on a concrete trial. -/
theorem c1_metropolis_acceptance_witness :
    swapCities stW.cur siW stW.ip 9 = .ok ([0, 4, 3, 2, 1, 0], 2) ∧
    annealTrial dW siW srW 9 (-49) stW = .ok st1W := by
  have hs : swapCities stW.cur siW stW.ip 9 = .ok ([0, 4, 3, 2, 1, 0], 2) := by decide
  refine ⟨hs, ?_⟩
  have happ := (c1_metropolis_acceptance dW siW srW 9 (-49) stW [0, 4, 3, 2, 1, 0] 2 hs).2.1
  rw [happ (by rw [gtl_41]; norm_num [stW]), gtl_41]
  norm_num [stW, st1W]

/-- C2: in a trial whose state satisfies the reachable-state invariant
`best_length ≤ current_length`, the best route and length are updated to
the candidate exactly when the candidate is accepted (either branch) and
is strictly shorter than the best so far; otherwise both are unchanged.
(In the Boltzmann branch the update condition is vacuous under the
invariant, which is why the source's overwritten `route_changed` flag
does not change the observable behaviour.) -/
theorem c2_update_best (d : ℕ → ℕ → ℚ) (si : ℕ → ℕ) (sr : ℕ → ℚ) (fuel : ℕ) (dt : ℚ)
    (st st2 : AState) (nr : List ℕ) (ip2 : ℕ)
    (hs : swapCities st.cur si st.ip fuel = .ok (nr, ip2))
    (hinv : st.bestLen ≤ st.curLen)
    (ht : annealTrial d si sr fuel dt st = .ok st2) :
    ((getTripLength d nr < st.curLen ∨
        (st.curLen ≤ getTripLength d nr ∧
         acceptReal (sr st.rp) (getTripLength d nr - st.curLen) st.temp)) ∧
       getTripLength d nr < st.bestLen →
       st2.best = nr ∧ st2.bestLen = getTripLength d nr) ∧
    (¬ ((getTripLength d nr < st.curLen ∨
          (st.curLen ≤ getTripLength d nr ∧
           acceptReal (sr st.rp) (getTripLength d nr - st.curLen) st.temp)) ∧
        getTripLength d nr < st.bestLen) →
       st2.best = st.best ∧ st2.bestLen = st.bestLen) := by
  obtain ⟨nr', ip2', hsw', hcase⟩ := annealTrial_ok_spec ht
  rw [hs] at hsw'
  injection hsw' with h1
  injection h1 with ha hb
  subst ha
  rcases hcase with ⟨h1, rfl⟩ | ⟨h1, h2, rfl⟩ | ⟨h1, h2, rfl⟩
  · by_cases hbb : getTripLength d nr < st.bestLen
    · exact ⟨fun _ => ⟨show (if getTripLength d nr < st.bestLen then nr else st.best) = nr
          from if_pos hbb,
        show (if getTripLength d nr < st.bestLen then getTripLength d nr else st.bestLen) =
            getTripLength d nr from if_pos hbb⟩,
        fun hn => absurd ⟨Or.inl h1, hbb⟩ hn⟩
    · exact ⟨fun h => absurd h.2 hbb,
        fun _ => ⟨show (if getTripLength d nr < st.bestLen then nr else st.best) = st.best
            from if_neg hbb,
          show (if getTripLength d nr < st.bestLen then getTripLength d nr else st.bestLen) =
              st.bestLen from if_neg hbb⟩⟩
  · have hbb : ¬ getTripLength d nr < st.bestLen := not_lt.mpr (le_trans hinv h1)
    exact ⟨fun h => absurd h.2 hbb, fun _ => ⟨rfl, rfl⟩⟩
  · exact ⟨fun h => h.1.elim (fun hlt => absurd hlt (not_lt.mpr h1))
        (fun hacc => absurd hacc.2 h2),
      fun _ => ⟨rfl, rfl⟩⟩

/-- C2 witness: on the concrete strict-improvement trial the best route
and best length are updated to the candidate. -/
theorem c2_update_best_witness :
    st1W.best = [0, 4, 3, 2, 1, 0] ∧ st1W.bestLen = getTripLength dW [0, 4, 3, 2, 1, 0] :=
  (c2_update_best dW siW srW 9 (-49) stW st1W [0, 4, 3, 2, 1, 0] 2 (by decide)
      (le_refl _) eval_trial1).1
    ⟨Or.inl (by rw [gtl_41]; norm_num [stW]), by rw [gtl_41]; norm_num [stW]⟩

/-- C7: the route returned by `optimize_route` never has a longer trip
length (under the same distance matrix) than the initial route, for any
trial count `T ≥ 2` and any random draws. -/
theorem c7_best_no_worse_than_initial (route : List ℕ) (d : ℕ → ℕ → ℚ) (t0 t1 : ℚ)
    (trials : ℕ) (si : ℕ → ℕ) (sr : ℕ → ℚ) (fuel : ℕ) (r : List ℕ)
    (htr : 2 ≤ trials) (hok : optimizeRoute route d t0 trials t1 si sr fuel = .ok r) :
    getTripLength d r ≤ getTripLength d route := by
  rw [optimizeRoute_eq] at hok
  cases hdiv : pyDiv (t1 - t0) ((trials : ℚ) - 1) with
  | err e => rw [hdiv] at hok; cases hok
  | timeout => rw [hdiv] at hok; cases hok
  | ok dt =>
      rw [hdiv] at hok
      have hok2 : (match annealLoop d si sr fuel dt trials
          ⟨route, getTripLength d route, route, getTripLength d route, t0, 0, 0⟩ with
        | Res.err e => Res.err e
        | Res.timeout => Res.timeout
        | Res.ok st => Res.ok st.best) = Res.ok r := hok
      cases hloop : annealLoop d si sr fuel dt trials
          ⟨route, getTripLength d route, route, getTripLength d route, t0, 0, 0⟩ with
      | err e => rw [hloop] at hok2; cases hok2
      | timeout => rw [hloop] at hok2; cases hok2
      | ok stf =>
          rw [hloop] at hok2
          injection hok2 with h1
          subst h1
          obtain ⟨hb, _, hle⟩ := loop_best_preserved hloop rfl (le_refl _) (le_refl _)
          rw [hb]
          exact hle

/-- C7 witness: a concrete two-trial run whose result has length 7 ≤ 65. -/
theorem c7_best_no_worse_than_initial_witness :
    (2 ≤ 2) ∧ optimizeRoute routeW dW 50 2 1 siW srW 9 = .ok [0, 2, 3, 4, 1, 0] ∧
    getTripLength dW [0, 2, 3, 4, 1, 0] ≤ getTripLength dW routeW :=
  ⟨by norm_num, eval_opt,
    c7_best_no_worse_than_initial routeW dW 50 1 2 siW srW 9 [0, 2, 3, 4, 1, 0]
      (by norm_num) eval_opt⟩

/-- C8: from any state with `best_length ≤ current_length`, both one
trial and any number of trials preserve that invariant; consequently a
candidate with `dL ≥ 0` can never beat the best found so far, and the
best route is replaced only on a strict-improvement trial. -/
theorem c8_best_le_current_invariant (d : ℕ → ℕ → ℚ) (si : ℕ → ℕ) (sr : ℕ → ℚ)
    (fuel : ℕ) (dt : ℚ) (st st2 st3 : AState) (nr : List ℕ) (ip2 n : ℕ)
    (hinv : st.bestLen ≤ st.curLen)
    (hs : swapCities st.cur si st.ip fuel = .ok (nr, ip2))
    (ht : annealTrial d si sr fuel dt st = .ok st2)
    (hl : annealLoop d si sr fuel dt n st = .ok st3) :
    st2.bestLen ≤ st2.curLen ∧ st3.bestLen ≤ st3.curLen ∧
    (st.curLen ≤ getTripLength d nr → ¬ getTripLength d nr < st.bestLen) ∧
    (st2.best ≠ st.best → getTripLength d nr < st.curLen) := by
  refine ⟨(trial_le_preserved ht hinv).1, loop_le_preserved hl hinv, ?_, ?_⟩
  · intro h1
    exact not_lt.mpr (le_trans hinv h1)
  · intro hne
    by_contra hnl
    obtain ⟨nr', ip2', hsw', hcase⟩ := annealTrial_ok_spec ht
    rw [hs] at hsw'
    injection hsw' with h1
    injection h1 with ha hb
    subst ha
    rcases hcase with ⟨h1, rfl⟩ | ⟨h1, h2, rfl⟩ | ⟨h1, h2, rfl⟩
    · exact hnl h1
    · exact hne rfl
    · exact hne rfl

/-- C8 witness: the invariant on the concrete trial and two-trial run. -/
theorem c8_best_le_current_invariant_witness :
    st1W.bestLen ≤ st1W.curLen ∧ st2W.bestLen ≤ st2W.curLen ∧
    (stW.curLen ≤ getTripLength dW [0, 4, 3, 2, 1, 0] →
      ¬ getTripLength dW [0, 4, 3, 2, 1, 0] < stW.bestLen) ∧
    (st1W.best ≠ stW.best → getTripLength dW [0, 4, 3, 2, 1, 0] < stW.curLen) :=
  c8_best_le_current_invariant dW siW srW 9 (-49) stW st1W st2W [0, 4, 3, 2, 1, 0] 2 2
    (le_refl _) (by decide) eval_trial1 eval_loop2

/-- C4 (counterexample): invalid schedule parameters are not rejected as
a configuration error: `trials = 1` surfaces as an unguarded
`ZeroDivisionError` from the `dt` computation, and `trials = 0` (also
`< 2`) is accepted and silently returns the initial route. -/
theorem c4_no_validation_counterexample :
    optimizeRoute routeW dW 50 1 1 siW srW 9 = .err .zeroDivisionError ∧
    optimizeRoute routeW dW 50 0 1 siW srW 9 = .ok routeW := by
  constructor
  · rw [optimizeRoute_eq, show pyDiv (1 - 50) (((1 : ℕ) : ℚ) - 1) = .err .zeroDivisionError
      from by rw [pyDiv, if_pos (by norm_num)]]
  · rw [optimizeRoute_eq, show pyDiv (1 - 50) (((0 : ℕ) : ℚ) - 1) =
        .ok ((1 - 50) / (((0 : ℕ) : ℚ) - 1)) from by rw [pyDiv, if_neg (by norm_num)]]
    rfl

/-- C4 (amended): `optimize_route` performs no parameter validation.
`trials = 1` raises an unguarded `ZeroDivisionError` while computing
`dt` (before any trial runs); `trials = 0` is accepted and returns the
initial route unchanged; and with an empty city list the error is not
raised before the loop: it surfaces from inside the first trial as the
`ValueError` of `randint` on an empty range in `swap_cities`. -/
theorem c4_unvalidated_parameters :
    (∀ (route : List ℕ) (d : ℕ → ℕ → ℚ) (t0 t1 : ℚ) (si : ℕ → ℕ) (sr : ℕ → ℚ) (fuel : ℕ),
       optimizeRoute route d t0 1 t1 si sr fuel = .err .zeroDivisionError) ∧
    (∀ (route : List ℕ) (d : ℕ → ℕ → ℚ) (t0 t1 : ℚ) (si : ℕ → ℕ) (sr : ℕ → ℚ) (fuel : ℕ),
       optimizeRoute route d t0 0 t1 si sr fuel = .ok route) ∧
    (∀ (d : ℕ → ℕ → ℚ) (t0 t1 : ℚ) (si : ℕ → ℕ) (sr : ℕ → ℚ) (fuel : ℕ),
       optimizeRoute [] d t0 2 t1 si sr fuel = .err .valueError) := by
  refine ⟨?_, ?_, ?_⟩
  · intro route d t0 t1 si sr fuel
    rw [optimizeRoute_eq, show pyDiv (t1 - t0) (((1 : ℕ) : ℚ) - 1) = .err .zeroDivisionError
      from by rw [pyDiv, if_pos (by norm_num)]]
  · intro route d t0 t1 si sr fuel
    rw [optimizeRoute_eq, show pyDiv (t1 - t0) (((0 : ℕ) : ℚ) - 1) =
        .ok ((t1 - t0) / (((0 : ℕ) : ℚ) - 1)) from by rw [pyDiv, if_neg (by norm_num)]]
    rfl
  · intro d t0 t1 si sr fuel
    rw [optimizeRoute_eq, show pyDiv (t1 - t0) (((2 : ℕ) : ℚ) - 1) =
        .ok ((t1 - t0) / (((2 : ℕ) : ℚ) - 1)) from by rw [pyDiv, if_neg (by norm_num)]]
    rfl
